import Mathlib

/-!
Shallow embedding of the FedZero client selection subsystem of this
repository (fedzero/selection_strategy.py, fedzero/utility.py,
fedzero/config.py).

The Gurobi solver is external: a model "solution" is embedded as any
assignment of the decision variables that satisfies every constraint the
source adds to the model, and the two solver invocations inside
FedZeroSelectionStrategy.select are oracles returning such an assignment
or nothing on infeasibility.  Floats are embedded as rationals, datetimes
as integer minutes.
-/

namespace FedZero

/-- Participant record (fedzero.entities.Client, a plain data carrier at
the interface boundary of the selection code).  The fields are the ones
the selection and utility code reads. -/
structure Client where
  name : String
  zone : String
  energy_per_batch : ℚ
  batches_per_epoch : ℚ
  participated_rounds : ℕ
  statistical_utility : ℚ
deriving DecidableEq

/-- config.py: TIMESTEP_IN_MIN = 1. -/
def TIMESTEP_IN_MIN : ℤ := 1

/-- config.py: MAX_ROUND_IN_MIN = 60. -/
def MAX_ROUND_IN_MIN : ℤ := 60

/-- config.py: ENABLE_BROWN_CLIENTS_DURING_TIME_WINDOW = True. -/
def ENABLE_BROWN_CLIENTS_DURING_TIME_WINDOW : Bool := true

/-- config.py: TIME_WINDOW_LOWER_BOUND = 1. -/
def TIME_WINDOW_LOWER_BOUND : ℕ := 1

/-- config.py: TIME_WINDOW_UPPER_BOUND = 10. -/
def TIME_WINDOW_UPPER_BOUND : ℕ := 10

/-- config.py: BROWN_CLIENTS_BUDGET_PERCENTAGE = 3.0. -/
def BROWN_CLIENTS_BUDGET_PERCENTAGE : ℚ := 3

/-- config.py: BROWN_CLIENTS_NUMBER_PERCENTAGE = 3.0. -/
def BROWN_CLIENTS_NUMBER_PERCENTAGE : ℚ := 3

/-- The horizon bound of the for loop in select:
int(MAX_ROUND_IN_MIN / TIMESTEP_IN_MIN). -/
def maxRoundTimesteps : ℕ := (MAX_ROUND_IN_MIN / TIMESTEP_IN_MIN).toNat

/-- Python int() applied to a rational: truncation toward zero. -/
def pyInt (q : ℚ) : ℤ := if 0 ≤ q then ⌊q⌋ else -⌊-q⌋

/-- Python round() to the nearest integer, ties going to even. -/
def pyRound (q : ℚ) : ℤ :=
  if q - ⌊q⌋ < 1/2 then ⌊q⌋
  else if 1/2 < q - ⌊q⌋ then ⌊q⌋ + 1
  else if ⌊q⌋ % 2 = 0 then ⌊q⌋ else ⌊q⌋ + 1

/-- One satisfying assignment of the decision variables of a selection
model: a continuous work allocation per (client, timestep) and a binary
selection indicator per client. -/
structure Solution where
  alloc : Client → ℕ → ℚ
  b : Client → Bool

/-- A returned result frame: rows are the selected clients, d columns of
consecutive timesteps, entry c t the batches allocated to client c in the
timestep with offset t. -/
structure AllocTable where
  rows : List Client
  entry : Client → ℕ → ℚ
  d : ℕ

/-- Total allocation of one client over the horizon (row sum of the
frame, solution.sum(axis=1)). -/
def totalAlloc (d : ℕ) (alloc : Client → ℕ → ℚ) (c : Client) : ℚ :=
  ((List.range d).map (alloc c)).sum

/-- Frame extraction at the end of _optimal_selection (lines 308 to 314)
and _brown_selection (lines 250 to 256): keep the rows whose selection
indicator solved to 1.  The source additionally sorts the rows, which no
stated property observes. -/
def solutionTable (clients : List Client) (sol : Solution) (d : ℕ) : AllocTable :=
  { rows := clients.filter (fun c => sol.b c), entry := sol.alloc, d := d }

/-- Energy drawn by a result frame (select, lines 156 to 161 for the
green frame and 174 to 181 for the brown frame): for each row the row sum
times energy_per_batch, then summed. -/
def tableEnergySum (T : AllocTable) : ℚ :=
  (T.rows.map (fun c => totalAlloc T.d T.entry c * c.energy_per_batch)).sum

/-- Column labels of a returned frame, in minutes:
pd.date_range(start = now + TIMESTEP_IN_MIN, periods = d). -/
def tableColumns (now : ℤ) (d : ℕ) : List ℤ :=
  (List.range d).map (fun t : ℕ => now + TIMESTEP_IN_MIN * ((t : ℤ) + 1))

/-- Inputs of the green model _optimal_selection: the filtered candidate
list, the round size K, the epoch bounds, the horizon d, the load
forecast ub giving the upper bound of each allocation variable (line 269
to 274), and the per zone power forecast (line 283). -/
structure GreenModelInput where
  clients : List Client
  K : ℕ
  min_epochs : ℚ
  max_epochs : ℚ
  d : ℕ
  ub : Client → ℕ → ℚ
  zoneForecast : String → ℕ → ℚ

/-- Energy drawn in one zone at one timestep: the zone constraint body of
_optimal_selection line 287, summing over the clients of that zone. -/
def zoneEnergy (clients : List Client) (z : String) (alloc : Client → ℕ → ℚ)
    (t : ℕ) : ℚ :=
  ((clients.filter (fun c => decide (c.zone = z))).map
    (fun c => alloc c t * c.energy_per_batch)).sum

/-- The constraint system _optimal_selection builds (lines 269 to 299):
variable bounds, the per zone per timestep energy ceiling, the exact
round size on the selection indicators, and the indicator constraints on
each total allocation. -/
def greenFeasible (P : GreenModelInput) (alloc : Client → ℕ → ℚ)
    (b : Client → Bool) : Prop :=
  (∀ c ∈ P.clients, ∀ t, t < P.d → 0 ≤ alloc c t ∧ alloc c t ≤ P.ub c t) ∧
  (∀ z ∈ P.clients.map (fun c => c.zone), ∀ t, t < P.d →
      zoneEnergy P.clients z alloc t ≤ P.zoneForecast z t) ∧
  ((P.clients.filter (fun c => b c)).length = P.K) ∧
  (∀ c ∈ P.clients,
      (b c = true → c.batches_per_epoch * P.min_epochs ≤ totalAlloc P.d alloc c ∧
          totalAlloc P.d alloc c ≤ c.batches_per_epoch * P.max_epochs) ∧
      (b c = false → totalAlloc P.d alloc c ≤ 0))

/-- The constraint system _brown_selection builds (lines 229 to 241):
variable bounds, one global energy budget constraint, indicator
constraints with a lower workload bound of batches_per_epoch * min_epochs
plus one, and a minimum count of selected clients. -/
def brownFeasible (clients : List Client) (min_epochs max_epochs : ℚ) (d : ℕ)
    (ub : Client → ℕ → ℚ) (l : ℚ) (min_clients : ℚ)
    (alloc : Client → ℕ → ℚ) (b : Client → Bool) : Prop :=
  (∀ c ∈ clients, ∀ t, t < d → 0 ≤ alloc c t ∧ alloc c t ≤ ub c t) ∧
  ((clients.map (fun c =>
      ((List.range d).map (fun t => alloc c t * c.energy_per_batch)).sum)).sum ≤ l) ∧
  (∀ c ∈ clients,
      (b c = true → c.batches_per_epoch * min_epochs + 1 ≤ totalAlloc d alloc c ∧
          totalAlloc d alloc c ≤ c.batches_per_epoch * max_epochs) ∧
      (b c = false → totalAlloc d alloc c ≤ 0)) ∧
  (min_clients ≤ (((clients.filter (fun c => b c)).length : ℚ)))

/-- _filterby_forecasted_capacity_and_energy (lines 408 to 423): keep the
clients whose summed pointwise minimum of load forecast and renewable
powered batches over the horizon reaches batches_per_epoch * min_epochs. -/
def filterby_forecasted_capacity_and_energy (loadFc : Client → ℕ → ℚ)
    (powerFc : String → ℕ → ℚ) (clients : List Client) (d : ℕ)
    (min_epochs : ℚ) : List Client :=
  clients.filter (fun c =>
    decide (c.batches_per_epoch * min_epochs ≤
      ((List.range d).map
        (fun t => min (loadFc c t) (powerFc c.zone t / c.energy_per_batch))).sum))

/-- _filterby_current_capacity (lines 388 to 405): keep the clients whose
summed load forecast over the horizon reaches
batches_per_epoch * min_epochs. -/
def filterby_current_capacity (loadFc : Client → ℕ → ℚ) (clients : List Client)
    (d : ℕ) (min_epochs : ℚ) : List Client :=
  clients.filter (fun c =>
    decide (c.batches_per_epoch * min_epochs ≤
      ((List.range d).map (loadFc c)).sum))

/-- Ambient inputs of one round of FedZeroSelectionStrategy.select after
the exclusion update: clients is the candidate list of line 142,
allClients models client_load_api.get_clients(), the forecast oracles are
read only, and the two solver oracles return a satisfying assignment of
the respective model or none on infeasibility. -/
structure SelectEnv where
  clients : List Client
  allClients : List Client
  excluded : List Client
  K : ℕ
  min_epochs : ℚ
  round_number : ℕ
  now : ℤ
  loadFc : Client → ℕ → ℚ
  powerFc : String → ℕ → ℚ
  greenSolve : ℕ → Option Solution
  brownSolve : ℕ → ℚ → ℚ → Option Solution

/-- filtered_clients of select line 146 at horizon d. -/
def selectFiltered (env : SelectEnv) (d : ℕ) : List Client :=
  filterby_forecasted_capacity_and_energy env.loadFc env.powerFc env.clients d
    env.min_epochs

/-- filtered_clients_capacity of select line 147 at horizon d. -/
def selectFilteredCap (env : SelectEnv) (d : ℕ) : List Client :=
  filterby_current_capacity env.loadFc env.clients d env.min_epochs

/-- The brown window test of select line 153. -/
def brownWindowActive (r : ℕ) : Bool :=
  ENABLE_BROWN_CLIENTS_DURING_TIME_WINDOW &&
    (decide (TIME_WINDOW_LOWER_BOUND ≤ r) && decide (r ≤ TIME_WINDOW_UPPER_BOUND))

/-- Brown candidate pool (select lines 154 and 163 to 168): all known
clients that fail the capacity filter and are not excluded, extended by
the green filtered clients that are not rows of the green frame T. -/
def brownPoolOf (env : SelectEnv) (d : ℕ) (T : AllocTable) : List Client :=
  (env.allClients.filter (fun c =>
      decide (c ∉ selectFilteredCap env d) && decide (c ∉ env.excluded))) ++
    ((selectFiltered env d).filter (fun c => decide (c ∉ T.rows)))

/-- The brown energy budget (select line 162): the rounded product of the
green frame energy and BROWN_CLIENTS_BUDGET_PERCENTAGE. -/
def limitOf (env : SelectEnv) (d : ℕ) (sol : Solution) : ℚ :=
  ((pyRound (tableEnergySum (solutionTable (selectFiltered env d) sol d) *
      BROWN_CLIENTS_BUDGET_PERCENTAGE) : ℤ) : ℚ)

/-- min_brown_clients (select line 169): the pool size capped maximum of
one and clients_per_round * BROWN_CLIENTS_NUMBER_PERCENTAGE. -/
def minBrownOf (env : SelectEnv) (d : ℕ) (sol : Solution) : ℚ :=
  min ((brownPoolOf env d (solutionTable (selectFiltered env d) sol d)).length : ℚ)
    (max 1 ((env.K : ℚ) * BROWN_CLIENTS_NUMBER_PERCENTAGE))

/-- The budget check of select lines 182 to 183: pass when the truncated
brown energy sum is at most limit * 1.01, otherwise raise (RuntimeError,
embedded as the error case). -/
def brownBudgetGate (s limit : ℚ) : Except String Unit :=
  if ((pyInt s : ℤ) : ℚ) ≤ limit * (101/100) then Except.ok ()
  else Except.error "Brown Energy Limit Exceeded"

/-- pd.concat([solution, brown_solution]) of select line 184. -/
def concatTables (T B : AllocTable) : AllocTable :=
  { rows := T.rows ++ B.rows,
    entry := fun c t => if c ∈ T.rows then T.entry c t else B.entry c t,
    d := T.d }

/-- The body of one iteration of the horizon loop of select (lines 146 to
186): filter, green solve, and inside the brown window the brown pass
with its count check and budget gate.  ok none embeds continue, ok some
embeds return solution, error embeds the raised RuntimeError. -/
def selectAttempt (env : SelectEnv) (d : ℕ) : Except String (Option AllocTable) :=
  if (selectFiltered env d).length < env.K then Except.ok none
  else
    match env.greenSolve d with
    | none => Except.ok none
    | some sol =>
      if brownWindowActive env.round_number then
        match env.brownSolve d (limitOf env d sol) (minBrownOf env d sol) with
        | none => Except.ok none
        | some bsol =>
          if ((solutionTable (brownPoolOf env d
                (solutionTable (selectFiltered env d) sol d)) bsol d).rows.length : ℚ)
              < minBrownOf env d sol then Except.ok none
          else
            match brownBudgetGate
                (tableEnergySum (solutionTable (brownPoolOf env d
                  (solutionTable (selectFiltered env d) sol d)) bsol d))
                (limitOf env d sol) with
            | Except.ok _ => Except.ok (some (concatTables
                (solutionTable (selectFiltered env d) sol d)
                (solutionTable (brownPoolOf env d
                  (solutionTable (selectFiltered env d) sol d)) bsol d)))
            | Except.error e => Except.error e
      else Except.ok (some (solutionTable (selectFiltered env d) sol d))

/-- The horizon loop of select (line 145): try horizons d, d+1, ... for
fuel iterations, stopping at the first accepted solution or raised
error. -/
def selectFrom (env : SelectEnv) : ℕ → ℕ → Except String (Option AllocTable)
  | _, 0 => Except.ok none
  | d, fuel + 1 =>
    match selectAttempt env d with
    | Except.ok none => selectFrom env (d + 1) fuel
    | Except.ok (some T) => Except.ok (some T)
    | Except.error e => Except.error e

/-- FedZeroSelectionStrategy.select after the cycle and exclusion
bookkeeping: the horizon loop over d = 1 .. maxRoundTimesteps, returning
none when no horizon yields an accepted solution (line 187). -/
def select (env : SelectEnv) : Except String (Option AllocTable) :=
  selectFrom env 1 maxRoundTimesteps

/-- The reinstatement probability of _update_excluded_clients lines 203
to 207.  The source uses self.alpha here (not the exclusion factor):
probability = min(alpha * 1 / (participated_rounds - wallah), 1) when the
difference is positive, else 1. -/
def reinstatement_probability (alpha pr wallah : ℚ) : ℚ :=
  if 0 < pr - wallah then min (alpha * 1 / (pr - wallah)) 1 else 1

/-- One iteration of the reinstatement loop body (lines 203 to 215):
remove the client from the excluded list when the uniform draw r falls at
or below the reinstatement probability. -/
def reinstStep (alpha wallah : ℚ) (lst : List Client) (c : Client) (r : ℚ) :
    List Client :=
  if r ≤ reinstatement_probability alpha (c.participated_rounds : ℚ) wallah then
    if c ∈ lst then lst.erase c else lst
  else lst

/-- The loop for i, client in enumerate(self.excluded_clients) of line
202, with in place removal: Python advances the index i over the live
list, so a removal shifts the remaining elements left and the element
sliding into position i is skipped.  draws i is the i-th rng.random()
value. -/
def updateExcludedLoop (alpha wallah : ℚ) (draws : ℕ → ℚ) :
    ℕ → ℕ → List Client → List Client
  | 0, _, lst => lst
  | fuel + 1, i, lst =>
    if h : i < lst.length then
      updateExcludedLoop alpha wallah draws fuel (i + 1)
        (reinstStep alpha wallah lst (lst.get ⟨i, h⟩) (draws i))
    else lst

/-- The whole reinstatement loop of _update_excluded_clients lines 202 to
215 on the excluded list assembled by the preceding quantile step. -/
def updateExcluded (alpha wallah : ℚ) (draws : ℕ → ℚ) (lst : List Client) :
    List Client :=
  updateExcludedLoop alpha wallah draws lst.length 0 lst

/-- Modelled from the spec words of claim C6 for comparison: the
reinstatement probability as the claim states it, with the exclusion
factor in place of alpha. -/
def reinstatement_probability_spec (exclusionFactor pr wallah : ℚ) : ℚ :=
  if 0 < pr - wallah then min (exclusionFactor / (pr - wallah)) 1 else 1

/-- The exclusion_factor property of lines 97 to 107: with
BROWN_CLIENTS_ALLOWANCE and BROWN_EXCLUSION_UPDATE both true in
config.py, reading the attribute yields the stored factor reduced by
min(0.25, factor * 0.25). -/
def effective_exclusion_factor (ef : ℚ) : ℚ := ef - min (1/4) (ef * (1/4))

/-- The cycle state owned by a FedZeroSelectionStrategy instance (lines
93 to 95): cycle start (minutes), stored participation mean, and the
active client set of the running cycle. -/
structure CycleState where
  cycle_start : Option ℤ
  cycle_participation_mean : ℚ
  cycle_active : Finset Client

/-- np.mean of participated_rounds over a client set. -/
def finsetMean (A : Finset Client) : ℚ :=
  (A.sum (fun c => (c.participated_rounds : ℚ))) / (A.card : ℚ)

/-- The cycle bookkeeping at the top of select (lines 114 to 129), with
times in minutes: start a cycle if none, close it after 1440 minutes
(recompute the stored mean from the active set, empty the set), blend
inside the trailing 720 minute transition window, and return the updated
state together with the reference value wallah handed to
_update_excluded_clients at line 139. -/
def cycleUpdate (st : CycleState) (now : ℤ) : CycleState × ℚ :=
  let wallah := st.cycle_participation_mean
  match st.cycle_start with
  | none => ({ st with cycle_start := some now }, wallah)
  | some s =>
    if s + 1440 ≤ now then
      ({ cycle_start := some now,
         cycle_participation_mean := finsetMean st.cycle_active,
         cycle_active := ∅ }, wallah)
    else if s + 720 ≤ now then
      (st, wallah + (finsetMean st.cycle_active - wallah) *
        (((now - (s + 720)) : ℚ) / 720))
    else
      (st, wallah)

/-- select line 135: union of the active set with the current round
candidates. -/
def cycleAccumulate (st : CycleState) (clients : List Client) : CycleState :=
  { st with cycle_active := st.cycle_active ∪ clients.toFinset }

/-- ParticipationJudge._calculate_participation (utility.py lines 79 to
92): a defaultdict keyed by client accumulating participated_rounds, so a
client occurring k times in the judge list holds k times its count. -/
def calculate_participation (clients : List Client) (c : Client) : ℕ :=
  clients.count c * c.participated_rounds

/-- The value list of the participation dictionary, one entry per
distinct client. -/
def participation_values (clients : List Client) : List ℕ :=
  clients.dedup.map (calculate_participation clients)

/-- Python min() over a nonempty list (0 on the empty list, where the
source would raise). -/
def pyListMin (l : List ℕ) : ℕ :=
  match l with
  | [] => 0
  | x :: xs => xs.foldl Nat.min x

/-- min_participation of ParticipationJudge.utility line 66:
max(1, min(participation.values())). -/
def min_participation (clients : List Client) : ℕ :=
  max 1 (pyListMin (participation_values clients))

/-- ParticipationJudge.utility (utility.py lines 56 to 77): weight
(min_participation / past_participation) ** weighting_exponent, and 1 for
a client with zero participation (the caught ZeroDivisionError).  The
weighting exponent is embedded as a natural number. -/
def participation_utility (clients : List Client) (e : ℕ) (c : Client) : ℚ :=
  if calculate_participation clients c = 0 then 1
  else ((min_participation clients : ℚ) / (calculate_participation clients c : ℚ)) ^ e

/-- Modelled from the spec words of claim C8 for comparison: the same
weighting but with the plain minimum observed participation count, not
floored at one. -/
def participation_utility_spec (clients : List Client) (e : ℕ) (c : Client) : ℚ :=
  if calculate_participation clients c = 0 then 1
  else ((pyListMin (participation_values clients) : ℚ) /
    (calculate_participation clients c : ℚ)) ^ e

/-- RandomSelectionStrategy.select result frame (line 72): the chosen
clients, value 1, a single column at now + one timestep.  The numpy
choice with replace=False is external; its contract is that the chosen
list has no duplicates. -/
def randomTable (chosen : List Client) : AllocTable :=
  { rows := chosen, entry := fun _ _ => 1, d := 1 }

/-- OortSelectionStrategy.select result frame (lines 365 to 366): the
known clients whose name the bandit returned, value 1, a single column at
now + one timestep. -/
def oortTable (allClients : List Client) (names : List String) : AllocTable :=
  { rows := allClients.filter (fun c => names.contains c.name),
    entry := fun _ _ => 1, d := 1 }

/-- Concrete client used by the evaluation instances. -/
def cA : Client :=
  { name := "a", zone := "z1", energy_per_batch := 1, batches_per_epoch := 2,
    participated_rounds := 0, statistical_utility := 0 }

/-- Concrete client used by the evaluation instances. -/
def cB : Client :=
  { name := "b", zone := "z2", energy_per_batch := 1, batches_per_epoch := 2,
    participated_rounds := 2, statistical_utility := 1 }

/-- Constant allocation used by the evaluation instances. -/
def allocW : Client → ℕ → ℚ := fun _ _ => 3

/-- All selected indicator used by the evaluation instances. -/
def bW : Client → Bool := fun _ => true

/-- A concrete green model input with one candidate and K = 1. -/
def PW : GreenModelInput :=
  { clients := [cA], K := 1, min_epochs := 1, max_epochs := 5, d := 1,
    ub := fun _ _ => 10, zoneForecast := fun _ _ => 100 }

/-- The solution assignment paired with allocW and bW. -/
def solW : Solution := { alloc := allocW, b := bW }

/-- A select environment with an empty candidate pool: every horizon
attempt continues. -/
def envTrivial : SelectEnv :=
  { clients := [], allClients := [], excluded := [], K := 1, min_epochs := 1,
    round_number := 0, now := 0, loadFc := fun _ _ => 0,
    powerFc := fun _ _ => 0, greenSolve := fun _ => none,
    brownSolve := fun _ _ _ => none }

/-- A select environment whose green solver accepts at horizon 1, with
the brown window inactive (round 0). -/
def envW : SelectEnv :=
  { clients := [cA], allClients := [cA], excluded := [], K := 1,
    min_epochs := 1, round_number := 0, now := 0, loadFc := fun _ _ => 10,
    powerFc := fun _ _ => 100, greenSolve := fun _ => some solW,
    brownSolve := fun _ _ _ => none }

/-- The frame select returns on envW. -/
def TW : AllocTable := solutionTable [cA] solW 1

/-- A concrete cycle state about to close. -/
def stW : CycleState :=
  { cycle_start := some 0, cycle_participation_mean := 7,
    cycle_active := {cB} }

/-! ## Helper lemmas -/

theorem totalAlloc_nonneg (d : ℕ) (alloc : Client → ℕ → ℚ) (c : Client)
    (h : ∀ t, t < d → 0 ≤ alloc c t) : 0 ≤ totalAlloc d alloc c := by
  apply List.sum_nonneg
  intro x hx
  rcases List.mem_map.mp hx with ⟨t, ht, rfl⟩
  exact h t (List.mem_range.mp ht)

theorem sum_map_filter_split (l : List Client) (p : Client → Bool)
    (f : Client → ℚ) :
    (l.map f).sum =
      ((l.filter p).map f).sum + ((l.filter (fun c => !(p c))).map f).sum := by
  induction l with
  | nil => simp
  | cons a l ih =>
    by_cases h : p a = true
    · rw [List.map_cons, List.sum_cons, List.filter_cons_of_pos h,
        List.filter_cons_of_neg (by simp [h]), List.map_cons, List.sum_cons, ih]
      ring
    · rw [List.map_cons, List.sum_cons, List.filter_cons_of_neg h,
        List.filter_cons_of_pos (by simp [h]), List.map_cons, List.sum_cons, ih]
      ring

/-! ## C1: exactly K selected in the green model -/

/-- C1: every solution of the green optimization model selects exactly
clients_per_round candidates: the returned table has exactly K rows, each
row carries a strictly positive total allocation (the per client minimum
workload being positive), and every candidate outside the rows has total
allocation zero. -/
theorem green_exactly_K_selected (P : GreenModelInput)
    (alloc : Client → ℕ → ℚ) (b : Client → Bool)
    (h : greenFeasible P alloc b)
    (hmin : ∀ c ∈ P.clients, 0 < c.batches_per_epoch * P.min_epochs) :
    (solutionTable P.clients ⟨alloc, b⟩ P.d).rows.length = P.K ∧
    (∀ c ∈ (solutionTable P.clients ⟨alloc, b⟩ P.d).rows,
      0 < totalAlloc P.d alloc c) ∧
    (∀ c ∈ P.clients, c ∉ (solutionTable P.clients ⟨alloc, b⟩ P.d).rows →
      totalAlloc P.d alloc c = 0) := by
  obtain ⟨hbnd, hzone, hcount, hind⟩ := h
  refine ⟨hcount, ?_, ?_⟩
  · intro c hc
    rcases List.mem_filter.mp hc with ⟨hmem, hb⟩
    have h1 := (hind c hmem).1 hb
    exact lt_of_lt_of_le (hmin c hmem) h1.1
  · intro c hmem hnr
    have hb : b c = false := by
      cases hbc : b c with
      | false => rfl
      | true => exact absurd (List.mem_filter.mpr ⟨hmem, hbc⟩) hnr
    have h2 := (hind c hmem).2 hb
    have h3 := totalAlloc_nonneg P.d alloc c (fun t ht => (hbnd c hmem t ht).1)
    linarith

/-- Witness for C1 on the concrete instance PW. -/
theorem green_exactly_K_selected_witness :
    (solutionTable PW.clients ⟨allocW, bW⟩ PW.d).rows.length = PW.K ∧
    (∀ c ∈ (solutionTable PW.clients ⟨allocW, bW⟩ PW.d).rows,
      0 < totalAlloc PW.d allocW c) ∧
    (∀ c ∈ PW.clients, c ∉ (solutionTable PW.clients ⟨allocW, bW⟩ PW.d).rows →
      totalAlloc PW.d allocW c = 0) :=
  green_exactly_K_selected PW allocW bW
    (by unfold greenFeasible; with_unfolding_all decide) (by with_unfolding_all decide)

/-! ## C2: zone energy ceiling in the green model -/

/-- C2: in every solution of the green model, for every zone holding a
candidate and every timestep of the solved horizon, the energy drawn by
the candidates of that zone (allocation times energy_per_batch, summed)
does not exceed the forecast available energy of the zone at that
timestep. -/
theorem green_zone_energy_cap (P : GreenModelInput)
    (alloc : Client → ℕ → ℚ) (b : Client → Bool)
    (h : greenFeasible P alloc b) (z : String)
    (hz : ∃ c ∈ P.clients, c.zone = z) (t : ℕ) (ht : t < P.d) :
    zoneEnergy P.clients z alloc t ≤ P.zoneForecast z t := by
  rcases hz with ⟨c, hc, rfl⟩
  exact h.2.1 c.zone (List.mem_map.mpr ⟨c, hc, rfl⟩) t ht

/-- Witness for C2 on the concrete instance PW. -/
theorem green_zone_energy_cap_witness :
    zoneEnergy PW.clients "z1" allocW 0 ≤ PW.zoneForecast "z1" 0 :=
  green_zone_energy_cap PW allocW bW
    (by unfold greenFeasible; with_unfolding_all decide)
    "z1" ⟨cA, by decide, rfl⟩ 0 (by decide)

/-! ## C3: per client workload bounds in both models -/

/-- C3: in every green model solution and in every brown model solution,
each selected candidate has a total allocation over the horizon inside
[min_epochs * batches_per_epoch, max_epochs * batches_per_epoch], and
each unselected candidate has total allocation zero (the brown model even
enforces the strictly larger lower bound min workload plus one). -/
theorem selected_allocation_bounds :
    (∀ (P : GreenModelInput) (alloc : Client → ℕ → ℚ) (b : Client → Bool),
      greenFeasible P alloc b → ∀ c ∈ P.clients,
        (b c = true →
          c.batches_per_epoch * P.min_epochs ≤ totalAlloc P.d alloc c ∧
          totalAlloc P.d alloc c ≤ c.batches_per_epoch * P.max_epochs) ∧
        (b c = false → totalAlloc P.d alloc c = 0)) ∧
    (∀ (clients : List Client) (me Me : ℚ) (d : ℕ) (ub : Client → ℕ → ℚ)
      (l mc : ℚ) (alloc : Client → ℕ → ℚ) (b : Client → Bool),
      brownFeasible clients me Me d ub l mc alloc b → ∀ c ∈ clients,
        (b c = true →
          c.batches_per_epoch * me ≤ totalAlloc d alloc c ∧
          totalAlloc d alloc c ≤ c.batches_per_epoch * Me) ∧
        (b c = false → totalAlloc d alloc c = 0)) := by
  constructor
  · intro P alloc b h c hc
    obtain ⟨hbnd, hzone, hcount, hind⟩ := h
    refine ⟨(hind c hc).1, ?_⟩
    intro hb
    have h2 := (hind c hc).2 hb
    have h3 := totalAlloc_nonneg P.d alloc c (fun t ht => (hbnd c hc t ht).1)
    linarith
  · intro clients me Me d ub l mc alloc b h c hc
    obtain ⟨hbnd, henergy, hind, hcount⟩ := h
    constructor
    · intro hb
      have h1 := (hind c hc).1 hb
      exact ⟨by linarith [h1.1], h1.2⟩
    · intro hb
      have h2 := (hind c hc).2 hb
      have h3 := totalAlloc_nonneg d alloc c (fun t ht => (hbnd c hc t ht).1)
      linarith

/-- Witness for C3 on the concrete instance PW at client cA. -/
theorem selected_allocation_bounds_witness :
    (bW cA = true →
      cA.batches_per_epoch * PW.min_epochs ≤ totalAlloc PW.d allocW cA ∧
      totalAlloc PW.d allocW cA ≤ cA.batches_per_epoch * PW.max_epochs) ∧
    (bW cA = false → totalAlloc PW.d allocW cA = 0) :=
  selected_allocation_bounds.1 PW allocW bW
    (by unfold greenFeasible; with_unfolding_all decide) cA (by decide)

/-! ## C4: brown budget enforcement -/

theorem brown_selected_energy_le (clients : List Client) (me Me : ℚ) (d : ℕ)
    (ub : Client → ℕ → ℚ) (l mc : ℚ) (alloc : Client → ℕ → ℚ)
    (b : Client → Bool)
    (h : brownFeasible clients me Me d ub l mc alloc b) :
    tableEnergySum (solutionTable clients ⟨alloc, b⟩ d) ≤ l := by
  obtain ⟨hbnd, henergy, hind, hcount⟩ := h
  have hper : ∀ c : Client,
      ((List.range d).map (fun t => alloc c t * c.energy_per_batch)).sum =
        totalAlloc d alloc c * c.energy_per_batch := by
    intro c
    simpa [totalAlloc] using
      List.sum_map_mul_right (List.range d) (alloc c) c.energy_per_batch
  have hrw : (clients.map (fun c =>
      ((List.range d).map (fun t => alloc c t * c.energy_per_batch)).sum)).sum =
      (clients.map (fun c => totalAlloc d alloc c * c.energy_per_batch)).sum := by
    congr 1
    exact List.map_congr_left (fun c _ => hper c)
  rw [hrw] at henergy
  have hsplit := sum_map_filter_split clients (fun c => b c)
    (fun c => totalAlloc d alloc c * c.energy_per_batch)
  have hzero : ((clients.filter (fun c => !(b c))).map
      (fun c => totalAlloc d alloc c * c.energy_per_batch)).sum = 0 := by
    apply List.sum_eq_zero
    intro x hx
    rcases List.mem_map.mp hx with ⟨c, hc, rfl⟩
    rcases List.mem_filter.mp hc with ⟨hmem, hbc⟩
    have hb : b c = false := by
      cases hb : b c
      · rfl
      · rw [hb] at hbc; exact absurd hbc (by simp)
    have h2 := (hind c hmem).2 hb
    have h3 := totalAlloc_nonneg d alloc c (fun t ht => (hbnd c hmem t ht).1)
    have : totalAlloc d alloc c = 0 := le_antisymm h2 h3
    rw [this, zero_mul]
  have : tableEnergySum (solutionTable clients ⟨alloc, b⟩ d) =
      ((clients.filter (fun c => b c)).map
        (fun c => totalAlloc d alloc c * c.energy_per_batch)).sum := rfl
  rw [this]
  linarith [hsplit, hzero, henergy]

/-- C4: a brown pass solution that select concatenates onto the green
solution draws at most 1.01 times the computed brown budget: every brown
model solution passes the budget gate with total energy at most the
budget, a failing gate yields the raised error, and a failing gate inside
the horizon loop aborts selectAttempt with that error instead of
continuing or returning a table. -/
theorem brown_budget_enforced :
    (∀ (clients : List Client) (me Me : ℚ) (d : ℕ) (ub : Client → ℕ → ℚ)
        (l mc : ℚ) (alloc : Client → ℕ → ℚ) (b : Client → Bool),
      0 ≤ l → brownFeasible clients me Me d ub l mc alloc b →
      tableEnergySum (solutionTable clients ⟨alloc, b⟩ d) ≤ l * (101/100) ∧
      brownBudgetGate (tableEnergySum (solutionTable clients ⟨alloc, b⟩ d)) l =
        Except.ok ()) ∧
    (∀ s limit : ℚ, ¬ ((pyInt s : ℤ) : ℚ) ≤ limit * (101/100) →
      brownBudgetGate s limit = Except.error "Brown Energy Limit Exceeded") ∧
    (∀ (env : SelectEnv) (d : ℕ) (sol bsol : Solution) (e : String),
      ¬ (selectFiltered env d).length < env.K →
      env.greenSolve d = some sol →
      brownWindowActive env.round_number = true →
      env.brownSolve d (limitOf env d sol) (minBrownOf env d sol) = some bsol →
      ¬ ((solutionTable (brownPoolOf env d
            (solutionTable (selectFiltered env d) sol d)) bsol d).rows.length : ℚ)
          < minBrownOf env d sol →
      brownBudgetGate
        (tableEnergySum (solutionTable (brownPoolOf env d
          (solutionTable (selectFiltered env d) sol d)) bsol d))
        (limitOf env d sol) = Except.error e →
      selectAttempt env d = Except.error e) := by
  refine ⟨?_, ?_, ?_⟩
  · intro clients me Me d ub l mc alloc b hl h
    have hs := brown_selected_energy_le clients me Me d ub l mc alloc b h
    have h101 : l ≤ l * (101/100) := by nlinarith
    refine ⟨le_trans hs h101, ?_⟩
    unfold brownBudgetGate
    rw [if_pos]
    set s := tableEnergySum (solutionTable clients ⟨alloc, b⟩ d) with hs_def
    by_cases h0 : 0 ≤ s
    · have : pyInt s = ⌊s⌋ := if_pos h0
      rw [this]
      have := Int.floor_le s
      linarith
    · have : pyInt s = -⌊-s⌋ := if_neg h0
      rw [this]
      have hfl : 0 ≤ ⌊-s⌋ := Int.floor_nonneg.mpr (by linarith)
      have : ((-⌊-s⌋ : ℤ) : ℚ) ≤ 0 := by
        push_cast
        exact neg_nonpos.mpr (by exact_mod_cast hfl)
      nlinarith
  · intro s limit h
    unfold brownBudgetGate
    rw [if_neg h]
  · intro env d sol bsol e hK hg hw hb hcnt hgate
    simp only [selectAttempt, if_neg hK, hg, hw, if_true, hb, if_neg hcnt, hgate]

/-- Witness for C4 on a concrete feasible brown assignment with budget
10. -/
theorem brown_budget_enforced_witness :
    tableEnergySum (solutionTable [cB] ⟨allocW, bW⟩ 1) ≤ 10 * (101/100) ∧
    brownBudgetGate (tableEnergySum (solutionTable [cB] ⟨allocW, bW⟩ 1)) 10 =
      Except.ok () :=
  brown_budget_enforced.1 [cB] 1 5 1 (fun _ _ => 10) 10 1 allocW bW
    (by norm_num) (by unfold brownFeasible; with_unfolding_all decide)

/-! ## C5: first feasible horizon wins -/

theorem selectFrom_succ (env : SelectEnv) (d fuel : ℕ) :
    selectFrom env d (fuel + 1) =
      match selectAttempt env d with
      | Except.ok none => selectFrom env (d + 1) fuel
      | Except.ok (some T) => Except.ok (some T)
      | Except.error e => Except.error e := rfl

theorem selectFrom_all_none (env : SelectEnv) (fuel : ℕ) :
    ∀ start, (∀ d, start ≤ d → d < start + fuel →
      selectAttempt env d = Except.ok none) →
    selectFrom env start fuel = Except.ok none := by
  induction fuel with
  | zero => intro start _; rfl
  | succ n ih =>
    intro start h
    have h0 : selectAttempt env start = Except.ok none :=
      h start le_rfl (by omega)
    rw [selectFrom_succ, h0]
    exact ih (start + 1) (fun d hd1 hd2 => h d (by omega) (by omega))

theorem selectFrom_first (env : SelectEnv) (fuel : ℕ) :
    ∀ start d0 T, start ≤ d0 → d0 < start + fuel →
      selectAttempt env d0 = Except.ok (some T) →
      (∀ d, start ≤ d → d < d0 → selectAttempt env d = Except.ok none) →
      selectFrom env start fuel = Except.ok (some T) := by
  induction fuel with
  | zero => intro start d0 T h1 h2 _ _; omega
  | succ n ih =>
    intro start d0 T h1 h2 h3 h4
    rcases eq_or_lt_of_le h1 with rfl | hlt
    · rw [selectFrom_succ, h3]
    · have h0 : selectAttempt env start = Except.ok none :=
        h4 start le_rfl hlt
      rw [selectFrom_succ, h0]
      exact ih (start + 1) d0 T (by omega) (by omega) h3
        (fun d hd1 hd2 => h4 d (by omega) hd2)

/-- C5: select tries horizons 1, 2, ... up to maxRoundTimesteps in
strictly increasing order: when every horizon attempt continues (no
accepted solution, including a brown pass failing its requirements) it
returns none, and when some horizon yields an accepted solution while all
smaller horizons continue, it returns exactly that first accepted
table. -/
theorem select_first_feasible_horizon (env : SelectEnv) :
    ((∀ d, 1 ≤ d → d ≤ maxRoundTimesteps →
        selectAttempt env d = Except.ok none) →
      select env = Except.ok none) ∧
    (∀ d0 T, 1 ≤ d0 → d0 ≤ maxRoundTimesteps →
      selectAttempt env d0 = Except.ok (some T) →
      (∀ d, 1 ≤ d → d < d0 → selectAttempt env d = Except.ok none) →
      select env = Except.ok (some T)) := by
  constructor
  · intro h
    exact selectFrom_all_none env maxRoundTimesteps 1
      (fun d hd1 hd2 => h d hd1 (by omega))
  · intro d0 T h1 h2 h3 h4
    exact selectFrom_first env maxRoundTimesteps 1 d0 T h1 (by omega) h3 h4

/-- Witness for C5: on the empty candidate pool environment every horizon
attempt continues and select returns none. -/
theorem select_first_feasible_horizon_witness :
    select envTrivial = Except.ok none :=
  (select_first_feasible_horizon envTrivial).1 (fun d h1 h2 => rfl)

/-! ## C6: reinstatement probability uses alpha, not the exclusion
factor -/

/-- C6 counterexample: with alpha = 1/10, stored exclusion factor 3/10,
reference value 0 and a drawn value of 1/10, the draw falls at or below
the probability claim C6 prescribes (exclusion factor over the
participation difference), yet the loop keeps the client excluded: lines
203 to 207 compute the probability from alpha. -/
theorem reinstatement_uses_alpha_counterexample :
    updateExcluded (1/10) 0 (fun _ => 1/10) [cB] = [cB] ∧
    (1/10 : ℚ) ≤ reinstatement_probability_spec
      (effective_exclusion_factor (3/10)) (cB.participated_rounds : ℚ) 0 := by
  constructor
  · with_unfolding_all decide
  · with_unfolding_all decide

/-- C6 amended: for every excluded client processed by the reinstatement
loop, the probability used for the uniform draw is
min(alpha / (participated_rounds - referenceValue), 1) when the
difference is positive and 1 otherwise — alpha, not the exclusion
factor — and the processed client leaves the excluded list exactly when
the draw falls at or below that probability. -/
theorem reinstatement_draw_amended (alpha wallah r : ℚ) (lst : List Client)
    (i : ℕ) (h : i < lst.length) :
    (reinstStep alpha wallah lst (lst.get ⟨i, h⟩) r).length = lst.length - 1 ↔
      r ≤ (if 0 < ((lst.get ⟨i, h⟩).participated_rounds : ℚ) - wallah
        then min (alpha / (((lst.get ⟨i, h⟩).participated_rounds : ℚ) - wallah)) 1
        else 1) := by
  set c := lst.get ⟨i, h⟩ with hc
  have hmem : c ∈ lst := List.get_mem lst i h
  have hprob : reinstatement_probability alpha (c.participated_rounds : ℚ) wallah =
      (if 0 < (c.participated_rounds : ℚ) - wallah
        then min (alpha / ((c.participated_rounds : ℚ) - wallah)) 1 else 1) := by
    unfold reinstatement_probability
    rw [mul_one]
  unfold reinstStep
  rw [hprob]
  by_cases hr : r ≤ (if 0 < (c.participated_rounds : ℚ) - wallah
      then min (alpha / ((c.participated_rounds : ℚ) - wallah)) 1 else 1)
  · rw [if_pos hr, if_pos hmem, List.length_erase_of_mem hmem]
    exact iff_of_true rfl hr
  · rw [if_neg hr]
    have hlen : 0 < lst.length := lt_of_le_of_lt (Nat.zero_le i) h
    constructor
    · intro hl
      exact absurd hl (by omega)
    · intro hr2
      exact absurd hr2 hr

/-- Witness for C6 amended on a singleton excluded list with a draw of
1. -/
theorem reinstatement_draw_amended_witness :
    ((reinstStep (1/10) 0 [cB] cB 1).length = [cB].length - 1 ↔
      (1 : ℚ) ≤ (if 0 < ((cB.participated_rounds : ℚ) - 0)
        then min ((1/10) / ((cB.participated_rounds : ℚ) - 0)) 1 else 1)) :=
  reinstatement_draw_amended (1/10) 0 1 [cB] 0 (by decide)

/-! ## C7: minimum brown participant count -/

/-- C7: the minimum brown participant count equals
min(pool size, max(1, clients_per_round * BROWN_CLIENTS_NUMBER_PERCENTAGE)),
every brown model solution selects at least min_clients candidates, and a
brown frame with fewer rows than the minimum makes the horizon attempt
continue instead of returning a table. -/
theorem brown_min_count :
    (∀ (env : SelectEnv) (d : ℕ) (sol : Solution), minBrownOf env d sol =
      min ((brownPoolOf env d
          (solutionTable (selectFiltered env d) sol d)).length : ℚ)
        (max 1 ((env.K : ℚ) * BROWN_CLIENTS_NUMBER_PERCENTAGE))) ∧
    (∀ (clients : List Client) (me Me : ℚ) (d : ℕ) (ub : Client → ℕ → ℚ)
        (l mc : ℚ) (alloc : Client → ℕ → ℚ) (b : Client → Bool),
      brownFeasible clients me Me d ub l mc alloc b →
      mc ≤ ((solutionTable clients ⟨alloc, b⟩ d).rows.length : ℚ)) ∧
    (∀ (env : SelectEnv) (d : ℕ) (sol bsol : Solution),
      ¬ (selectFiltered env d).length < env.K →
      env.greenSolve d = some sol →
      brownWindowActive env.round_number = true →
      env.brownSolve d (limitOf env d sol) (minBrownOf env d sol) = some bsol →
      ((solutionTable (brownPoolOf env d
          (solutionTable (selectFiltered env d) sol d)) bsol d).rows.length : ℚ)
        < minBrownOf env d sol →
      selectAttempt env d = Except.ok none) := by
  refine ⟨fun env d sol => rfl, ?_, ?_⟩
  · intro clients me Me d ub l mc alloc b h
    exact h.2.2.2
  · intro env d sol bsol hK hg hw hb hcnt
    simp only [selectAttempt, if_neg hK, hg, hw, if_true, hb, if_pos hcnt]

/-- Witness for C7 on the concrete feasible brown assignment with
min_clients 1. -/
theorem brown_min_count_witness :
    (1 : ℚ) ≤ ((solutionTable [cB] ⟨allocW, bW⟩ 1).rows.length : ℚ) :=
  brown_min_count.2.1 [cB] 1 5 1 (fun _ _ => 10) 10 1 allocW bW
    (by unfold brownFeasible; with_unfolding_all decide)

/-! ## C8: participation judge weighting -/

/-- C8 counterexample: with one client that never participated and one
that participated twice, exponent 1, the code weights the second client
by max(1, minimum participation) / 2 = 1/2, while the claim formula
(plain minimum observed participation over own participation) yields
0. -/
theorem participation_weight_counterexample :
    participation_utility [cA, cB] 1 cB ≠
      participation_utility_spec [cA, cB] 1 cB := by
  with_unfolding_all decide

/-- C8 amended: ParticipationJudge.utility weights each client by
(max(1, minimum observed participation count) / own participation count)
raised to the weighting exponent; a client with zero recorded
participation receives weight 1, and with exponent 0 every client
receives weight 1 regardless of participation. -/
theorem participation_weight_amended (clients : List Client) (e : ℕ)
    (c : Client) (hc : c ∈ clients) :
    (calculate_participation clients c = 0 →
      participation_utility clients e c = 1) ∧
    (e = 0 → participation_utility clients e c = 1) ∧
    (calculate_participation clients c ≠ 0 →
      participation_utility clients e c =
        (((max 1 (pyListMin (participation_values clients)) : ℕ) : ℚ) /
          (calculate_participation clients c : ℚ)) ^ e) := by
  refine ⟨?_, ?_, ?_⟩
  · intro h0
    unfold participation_utility
    rw [if_pos h0]
  · rintro rfl
    unfold participation_utility
    by_cases h0 : calculate_participation clients c = 0
    · rw [if_pos h0]
    · rw [if_neg h0, pow_zero]
  · intro h0
    unfold participation_utility
    rw [if_neg h0]
    rfl

/-- Witness for C8 amended: with exponent 0 the twice participated client
receives weight 1. -/
theorem participation_weight_amended_witness :
    participation_utility [cA, cB] 0 cB = 1 :=
  (participation_weight_amended [cA, cB] 0 cB (by decide)).2.1 rfl

/-! ## C9: allocation table structure -/

theorem selectFiltered_subset_cap (env : SelectEnv) (d : ℕ) :
    ∀ c ∈ selectFiltered env d, c ∈ selectFilteredCap env d := by
  intro c hc
  unfold selectFiltered filterby_forecasted_capacity_and_energy at hc
  rcases List.mem_filter.mp hc with ⟨hmem, hcond⟩
  have hcond2 := of_decide_eq_true hcond
  unfold selectFilteredCap filterby_current_capacity
  refine List.mem_filter.mpr ⟨hmem, decide_eq_true ?_⟩
  refine le_trans hcond2 ?_
  exact List.sum_le_sum (fun t _ => min_le_left _ _)

theorem concat_rows_nodup (env : SelectEnv) (d : ℕ) (sol bsol : Solution)
    (hcl : env.clients.Nodup) (hall : env.allClients.Nodup) :
    ((concatTables (solutionTable (selectFiltered env d) sol d)
      (solutionTable (brownPoolOf env d
        (solutionTable (selectFiltered env d) sol d)) bsol d)).rows).Nodup := by
  have hF : (selectFiltered env d).Nodup := List.Nodup.filter _ hcl
  have hG : ((selectFiltered env d).filter (fun c => sol.b c)).Nodup :=
    List.Nodup.filter _ hF
  have hGsub : ∀ c ∈ (selectFiltered env d).filter (fun c => sol.b c),
      c ∈ selectFiltered env d := fun c hc => (List.mem_filter.mp hc).1
  have hA : (env.allClients.filter (fun c =>
      decide (c ∉ selectFilteredCap env d) && decide (c ∉ env.excluded))).Nodup :=
    List.Nodup.filter _ hall
  have hBu : ((selectFiltered env d).filter (fun c =>
      decide (c ∉ (solutionTable (selectFiltered env d) sol d).rows))).Nodup :=
    List.Nodup.filter _ hF
  have hdisjPool : List.Disjoint
      (env.allClients.filter (fun c =>
        decide (c ∉ selectFilteredCap env d) && decide (c ∉ env.excluded)))
      ((selectFiltered env d).filter (fun c =>
        decide (c ∉ (solutionTable (selectFiltered env d) sol d).rows))) := by
    intro a haA haBu
    rcases List.mem_filter.mp haA with ⟨_, hcond⟩
    rw [Bool.and_eq_true] at hcond
    have hnotcap := of_decide_eq_true hcond.1
    rcases List.mem_filter.mp haBu with ⟨haF, _⟩
    exact hnotcap (selectFiltered_subset_cap env d a haF)
  have hpool : (brownPoolOf env d
      (solutionTable (selectFiltered env d) sol d)).Nodup :=
    List.Nodup.append hA hBu hdisjPool
  have hB : ((brownPoolOf env d
      (solutionTable (selectFiltered env d) sol d)).filter
        (fun c => bsol.b c)).Nodup := List.Nodup.filter _ hpool
  have hdisjGB : List.Disjoint
      ((selectFiltered env d).filter (fun c => sol.b c))
      ((brownPoolOf env d (solutionTable (selectFiltered env d) sol d)).filter
        (fun c => bsol.b c)) := by
    intro a haG haB
    rcases List.mem_filter.mp haB with ⟨hapool, _⟩
    rcases List.mem_append.mp hapool with haA | haBu
    · rcases List.mem_filter.mp haA with ⟨_, hcond⟩
      rw [Bool.and_eq_true] at hcond
      exact (of_decide_eq_true hcond.1)
        (selectFiltered_subset_cap env d a (hGsub a haG))
    · rcases List.mem_filter.mp haBu with ⟨_, hcond⟩
      exact (of_decide_eq_true hcond) haG
  exact List.Nodup.append hG hB hdisjGB

theorem selectAttempt_table_shape (env : SelectEnv) (d : ℕ) (T : AllocTable)
    (hcl : env.clients.Nodup) (hall : env.allClients.Nodup)
    (h : selectAttempt env d = Except.ok (some T)) :
    T.rows.Nodup ∧ T.d = d := by
  unfold selectAttempt at h
  split at h
  · exact absurd h (by simp)
  · split at h
    · exact absurd h (by simp)
    · rename_i sol _
      split at h
      · split at h
        · exact absurd h (by simp)
        · rename_i bsol _
          split at h
          · exact absurd h (by simp)
          · split at h
            · simp only [Except.ok.injEq, Option.some.injEq] at h
              subst h
              exact ⟨concat_rows_nodup env d sol bsol hcl hall, rfl⟩
            · exact absurd h (by simp)
      · simp only [Except.ok.injEq, Option.some.injEq] at h
        subst h
        refine ⟨?_, rfl⟩
        have hF : (selectFiltered env d).Nodup := List.Nodup.filter _ hcl
        exact List.Nodup.filter _ hF

theorem selectFrom_ok_some (env : SelectEnv) (fuel : ℕ) :
    ∀ start T, selectFrom env start fuel = Except.ok (some T) →
      ∃ d, start ≤ d ∧ d < start + fuel ∧
        selectAttempt env d = Except.ok (some T) := by
  induction fuel with
  | zero =>
    intro start T h
    exact absurd h (by simp [selectFrom])
  | succ n ih =>
    intro start T h
    rw [selectFrom_succ] at h
    rcases hA : selectAttempt env start with e | o
    · rw [hA] at h
      exact absurd (h : Except.error e = Except.ok (some T)) (by simp)
    · cases o with
      | none =>
        rw [hA] at h
        obtain ⟨d, hd1, hd2, hd3⟩ := ih (start + 1) T h
        exact ⟨d, by omega, by omega, hd3⟩
      | some T2 =>
        rw [hA] at h
        have h2 : Except.ok (some T2) = Except.ok (some T) := h
        simp only [Except.ok.injEq, Option.some.injEq] at h2
        subst h2
        exact ⟨start, le_rfl, by omega, hA⟩

theorem tableColumns_head (now : ℤ) (d : ℕ) (hd : 1 ≤ d) :
    (tableColumns now d).head? = some (now + TIMESTEP_IN_MIN) := by
  obtain ⟨k, rfl⟩ : ∃ k, d = k + 1 := ⟨d - 1, by omega⟩
  simp [tableColumns, List.range_succ_eq_map]

/-- C9: every allocation table the FedZero strategy returns has pairwise
distinct rows — in particular the green selected and brown selected
client sets are disjoint — and only columns inside
(now, now + MAX_ROUND_IN_MIN], the first column lying at
now + TIMESTEP_IN_MIN; the random and oort strategy frames likewise have
pairwise distinct rows and a single column at now + TIMESTEP_IN_MIN. -/
theorem allocation_table_invariant (env : SelectEnv) (T : AllocTable)
    (hcl : env.clients.Nodup) (hall : env.allClients.Nodup)
    (hsel : select env = Except.ok (some T)) :
    T.rows.Nodup ∧
    (tableColumns env.now T.d).head? = some (env.now + TIMESTEP_IN_MIN) ∧
    (∀ col ∈ tableColumns env.now T.d,
      env.now < col ∧ col ≤ env.now + MAX_ROUND_IN_MIN) ∧
    (∀ chosen : List Client, chosen.Nodup → (randomTable chosen).rows.Nodup) ∧
    (∀ names : List String, (oortTable env.allClients names).rows.Nodup) ∧
    (∀ col ∈ tableColumns env.now 1,
      env.now < col ∧ col ≤ env.now + MAX_ROUND_IN_MIN) := by
  obtain ⟨d, hd1, hd2, hatt⟩ := selectFrom_ok_some env maxRoundTimesteps 1 T hsel
  obtain ⟨hnodup, hdT⟩ := selectAttempt_table_shape env d T hcl hall hatt
  have hmax : maxRoundTimesteps = 60 := by with_unfolding_all decide
  have hcols : ∀ dd : ℕ, dd ≤ 60 → ∀ col ∈ tableColumns env.now dd,
      env.now < col ∧ col ≤ env.now + MAX_ROUND_IN_MIN := by
    intro dd hdd col hcol
    unfold tableColumns at hcol
    rw [List.mem_map] at hcol
    obtain ⟨t, ht, rfl⟩ := hcol
    have ht2 : t < dd := List.mem_range.mp ht
    unfold TIMESTEP_IN_MIN MAX_ROUND_IN_MIN
    constructor <;> omega
  refine ⟨hnodup, ?_, ?_, ?_, ?_, ?_⟩
  · rw [hdT]
    exact tableColumns_head env.now d hd1
  · rw [hdT]
    exact hcols d (by omega)
  · exact fun chosen hch => hch
  · exact fun names => List.Nodup.filter _ hall
  · exact hcols 1 (by omega)

/-- Witness for C9 on the concrete environment envW whose green solver
accepts at horizon 1. -/
theorem allocation_table_invariant_witness :
    TW.rows.Nodup ∧
    (tableColumns envW.now TW.d).head? = some (envW.now + TIMESTEP_IN_MIN) ∧
    (∀ col ∈ tableColumns envW.now TW.d,
      envW.now < col ∧ col ≤ envW.now + MAX_ROUND_IN_MIN) ∧
    (∀ chosen : List Client, chosen.Nodup → (randomTable chosen).rows.Nodup) ∧
    (∀ names : List String, (oortTable envW.allClients names).rows.Nodup) ∧
    (∀ col ∈ tableColumns envW.now 1,
      envW.now < col ∧ col ≤ envW.now + MAX_ROUND_IN_MIN) :=
  allocation_table_invariant envW TW (by decide) (by decide)
    (by with_unfolding_all rfl)

/-! ## C10: cycle closure and the lagging reference value -/

/-- C10: in the round that closes a 24 hour cycle, the stored
participation mean is recomputed from the closing cycle active set and
the active set is reset, while that same round exclusion update receives
the reference value read before the recomputation (the previously stored
mean); a later round inside the fresh cycle, before its transition
window, receives the freshly computed mean. -/
theorem cycle_close_reference_lag (st : CycleState) (s now now2 : ℤ)
    (h1 : st.cycle_start = some s) (h2 : s + 1440 ≤ now)
    (hne : st.cycle_active.Nonempty) (h3 : now ≤ now2) (h4 : now2 < now + 720) :
    (cycleUpdate st now).2 = st.cycle_participation_mean ∧
    (cycleUpdate st now).1.cycle_participation_mean =
      finsetMean st.cycle_active ∧
    (cycleUpdate st now).1.cycle_active = ∅ ∧
    (∀ cl : List Client,
      (cycleUpdate (cycleAccumulate (cycleUpdate st now).1 cl) now2).2 =
        finsetMean st.cycle_active) := by
  have hclose : cycleUpdate st now =
      ({ cycle_start := some now,
         cycle_participation_mean := finsetMean st.cycle_active,
         cycle_active := ∅ }, st.cycle_participation_mean) := by
    unfold cycleUpdate
    rw [h1]
    simp only []
    rw [if_pos h2]
  refine ⟨by rw [hclose], by rw [hclose], by rw [hclose], ?_⟩
  intro cl
  have hA : ¬ now + 1440 ≤ now2 := by omega
  have hB : ¬ now + 720 ≤ now2 := by omega
  rw [hclose]
  simp only [cycleAccumulate, cycleUpdate]
  rw [if_neg hA, if_neg hB]

/-- Witness for C10 on the concrete closing state stW. -/
theorem cycle_close_reference_lag_witness :
    (cycleUpdate stW 1440).2 = stW.cycle_participation_mean ∧
    (cycleUpdate stW 1440).1.cycle_participation_mean =
      finsetMean stW.cycle_active ∧
    (cycleUpdate stW 1440).1.cycle_active = ∅ ∧
    (cycleUpdate (cycleAccumulate (cycleUpdate stW 1440).1 [cA]) 1500).2 =
      finsetMean stW.cycle_active := by
  have h := cycle_close_reference_lag stW 0 1440 1500 rfl (by norm_num)
    ⟨cB, by simp [stW]⟩ (by norm_num) (by norm_num)
  exact ⟨h.1, h.2.1, h.2.2.1, h.2.2.2 [cA]⟩

end FedZero
